import Mathlib

/-!
Shallow embedding of the line-selection logic of `src/main.rs` from the
`rusty_axe` repository.

The function `get_events(path, head, tail)` captures one run timestamp,
counts the lines of the file, and then walks the lines with their zero-based
index.  For each line a mutable `event` variable starts as the empty builder
value; three `if` statements (all-mode, head rule, tail rule) may overwrite it
with a fully built event carrying the run timestamp and the (blank-substituted)
line; the event is pushed only when its `message` field is set.  File I/O is
modelled with `Except`: the open step and each per-line read may fail, and any
failure aborts the whole call without producing an event list.
-/

/-- Rust `InputLogEvent` (aws_sdk_cloudwatchlogs): a builder-produced record
whose `timestamp` and `message` fields stay unset until given. -/
structure InputLogEvent where
  timestamp : Option Int
  message : Option String
  deriving DecidableEq, Repr

/-- `InputLogEvent::builder().build()` — no field set (main.rs line 77). -/
def InputLogEvent.empty : InputLogEvent := ⟨none, none⟩

/-- `InputLogEvent::builder().timestamp(ts).message(line).build()`
(main.rs lines 86-89, 93-96, 100-103; all three sites build this value). -/
def mkEvent (ts : Int) (msg : String) : InputLogEvent := ⟨some ts, some msg⟩

/-- Blank-line substitution (main.rs lines 80-82):
`if line.is_empty() { line = String::from(" "); }`. -/
def fixBlank (line : String) : String := if line = "" then " " else line

/-- The tail-rule condition (main.rs line 99):
`(tail >= count) || (tail != 0 && index > count - (tail + 1))`,
with the Rust `usize` subtraction modelled as `Nat` truncated subtraction. -/
def tailCond (count tail index : Nat) : Bool :=
  decide (tail ≥ count) || (tail != 0 && decide (index > count - (tail + 1)))

/-- The same condition with the subtraction carried out in `ℤ`, where it cannot
truncate; used to express that the guarded `usize` subtraction never
underflows. -/
def tailCondInt (count tail index : Nat) : Bool :=
  decide (tail ≥ count) ||
    (tail != 0 && decide ((index : Int) > (count : Int) - ((tail : Int) + 1)))

/-- The loop body of `get_events` (main.rs lines 76-104): the mutable `event`
variable, initialised to the empty builder value and overwritten by each rule
whose condition holds (last write wins). -/
def lineEvent (ts : Int) (count head tail index : Nat) (line0 : String) :
    InputLogEvent :=
  let line := fixBlank line0
  let event := InputLogEvent.empty
  let event := if head == 0 && tail == 0 then mkEvent ts line else event
  let event := if head != 0 && decide (index < head) then mkEvent ts line else event
  let event := if tailCond count tail index then mkEvent ts line else event
  event

/-- The inclusion condition of the loop collapsed to one disjunction: the three
`if`s of `lineEvent` all assign the identical event, so the overwrites reduce
to "some rule fired". -/
def shouldLog (count head tail index : Nat) : Bool :=
  (head == 0 && tail == 0) || (head != 0 && decide (index < head)) ||
    tailCond count tail index

/-- The enumerated loop of `get_events` (main.rs lines 75-110): index-carrying
recursion over the lines, pushing `event` only when its message is set
(the `match event.message` at lines 106-109). -/
def get_events_aux (ts : Int) (count head tail : Nat) :
    Nat → List String → List InputLogEvent
  | _, [] => []
  | i, line :: rest =>
    let event := lineEvent ts count head tail i line
    match event.message with
    | some _ => event :: get_events_aux ts count head tail (i + 1) rest
    | none => get_events_aux ts count head tail (i + 1) rest

/-- `get_events` on an already-read file: `count` is the first full pass
(`reader.lines().count()`, main.rs line 68), then the enumerated loop runs from
index 0.  The run timestamp `ts`, captured once before any line is processed
(main.rs lines 58-63), is a parameter. -/
def get_events (ts : Int) (head tail : Nat) (lines : List String) :
    List InputLogEvent :=
  get_events_aux ts lines.length head tail 0 lines

/-- The per-line `line.unwrap()` (main.rs line 76): the first line-read error
aborts the whole call, so no prefix of decoded lines survives. -/
def unwrapAll : List (Except String String) → Except String (List String)
  | [] => Except.ok []
  | Except.error e :: _ => Except.error e
  | Except.ok s :: rest =>
    match unwrapAll rest with
    | Except.error e => Except.error e
    | Except.ok ss => Except.ok (s :: ss)

/-- `get_events` with its fallible I/O boundary: the file either fails to open
(`File::open(path)`, main.rs line 66) or yields a list of per-line read
results; any failure aborts with the error and no event list is produced. -/
def get_events_result (ts : Int) (head tail : Nat)
    (file : Except String (List (Except String String))) :
    Except String (List InputLogEvent) :=
  match file with
  | Except.error e => Except.error e
  | Except.ok lineResults =>
    match unwrapAll lineResults with
    | Except.error e => Except.error e
    | Except.ok ls => Except.ok (get_events ts head tail ls)

example : get_events 0 0 0 ["a", "", "c"] =
    [mkEvent 0 "a", mkEvent 0 " ", mkEvent 0 "c"] := by decide

example : get_events 0 2 0 ["a", "b", "c"] = [mkEvent 0 "a", mkEvent 0 "b"] := by
  decide

example : get_events 0 0 2 ["a", "b", "c"] = [mkEvent 0 "b", mkEvent 0 "c"] := by
  decide

example : get_events 0 1 1 ["a", "b", "c"] = [mkEvent 0 "a", mkEvent 0 "c"] := by
  decide

example : get_events 0 2 2 ["a", "b"] = [mkEvent 0 "a", mkEvent 0 "b"] := by
  decide

/-! ### Characterisation of the loop body -/

lemma tailCond_iff (count tail index : Nat) :
    tailCond count tail index = true ↔
      count ≤ tail ∨ (tail ≠ 0 ∧ count - (tail + 1) < index) := by
  simp [tailCond]

lemma tailCond_eq (count tail index : Nat) (ht : tail ≠ 0) :
    tailCond count tail index = decide (count - tail ≤ index) := by
  rw [Bool.eq_iff_iff, tailCond_iff, decide_eq_true_eq]
  omega

lemma shouldLog_iff (count head tail index : Nat) :
    shouldLog count head tail index = true ↔
      (head = 0 ∧ tail = 0) ∨ (head ≠ 0 ∧ index < head) ∨
        count ≤ tail ∨ (tail ≠ 0 ∧ count - (tail + 1) < index) := by
  simp [shouldLog, tailCond_iff, or_assoc]

lemma lineEvent_eq (ts : Int) (count head tail index : Nat) (line0 : String) :
    lineEvent ts count head tail index line0 =
      if shouldLog count head tail index then mkEvent ts (fixBlank line0)
      else InputLogEvent.empty := by
  unfold lineEvent shouldLog
  cases h1 : (head == 0 && tail == 0) <;>
    cases h2 : (head != 0 && decide (index < head)) <;>
      cases h3 : tailCond count tail index <;> simp

lemma shouldLog_all (count index : Nat) : shouldLog count 0 0 index = true := by
  rw [shouldLog_iff]
  omega

lemma shouldLog_head (count head index : Nat) (hc : count ≠ 0) (hh : head ≠ 0) :
    shouldLog count head 0 index = decide (index < head) := by
  rw [Bool.eq_iff_iff, shouldLog_iff, decide_eq_true_eq]
  omega

lemma shouldLog_tail (count tail index : Nat) (ht : tail ≠ 0) :
    shouldLog count 0 tail index = decide (count - tail ≤ index) := by
  rw [Bool.eq_iff_iff, shouldLog_iff, decide_eq_true_eq]
  omega

lemma shouldLog_both (count head tail index : Nat) (hh : head ≠ 0) (ht : tail ≠ 0) :
    shouldLog count head tail index =
      (decide (index < head) || decide (count - tail ≤ index)) := by
  rw [Bool.eq_iff_iff, shouldLog_iff]
  simp only [Bool.or_eq_true, decide_eq_true_eq]
  omega

/-! ### Unrolling the loop -/

lemma get_events_aux_cons (ts : Int) (count head tail i : Nat) (line : String)
    (rest : List String) :
    get_events_aux ts count head tail i (line :: rest) =
      if shouldLog count head tail i then
        mkEvent ts (fixBlank line) :: get_events_aux ts count head tail (i + 1) rest
      else get_events_aux ts count head tail (i + 1) rest := by
  simp only [get_events_aux]
  rw [lineEvent_eq]
  cases h : shouldLog count head tail i <;> simp [mkEvent, InputLogEvent.empty]

lemma get_events_aux_all (ts : Int) (count head tail : Nat) (l : List String) :
    ∀ i, (∀ j, j < l.length → shouldLog count head tail (i + j) = true) →
      get_events_aux ts count head tail i l =
        l.map fun s => mkEvent ts (fixBlank s) := by
  induction l with
  | nil => intro i _; rfl
  | cons line rest ih =>
    intro i hall
    have h0 : shouldLog count head tail i = true := by
      simpa using hall 0 (by simp)
    rw [get_events_aux_cons, if_pos h0, List.map_cons, ih (i + 1)]
    intro j hj
    have h1 := hall (j + 1) (by simpa using Nat.succ_lt_succ hj)
    have h2 : i + (j + 1) = i + 1 + j := by omega
    rwa [h2] at h1

lemma get_events_aux_head (ts : Int) (count head : Nat) (hc : count ≠ 0)
    (hh : head ≠ 0) (l : List String) :
    ∀ i, get_events_aux ts count head 0 i l =
      (l.take (head - i)).map fun s => mkEvent ts (fixBlank s) := by
  induction l with
  | nil => intro i; simp [get_events_aux]
  | cons line rest ih =>
    intro i
    rw [get_events_aux_cons, shouldLog_head count head i hc hh, ih (i + 1)]
    by_cases hi : i < head
    · rw [if_pos (by simpa using hi)]
      have h1 : head - i = (head - (i + 1)) + 1 := by omega
      rw [h1, List.take_succ_cons, List.map_cons]
    · rw [if_neg (by simpa using hi)]
      have h1 : head - i = 0 := by omega
      have h2 : head - (i + 1) = 0 := by omega
      rw [h1, h2]
      simp

lemma get_events_aux_tail (ts : Int) (count tail : Nat) (ht : tail ≠ 0)
    (l : List String) :
    ∀ i, get_events_aux ts count 0 tail i l =
      (l.drop (count - tail - i)).map fun s => mkEvent ts (fixBlank s) := by
  induction l with
  | nil => intro i; simp [get_events_aux]
  | cons line rest ih =>
    intro i
    rw [get_events_aux_cons, shouldLog_tail count tail i ht, ih (i + 1)]
    by_cases hi : count - tail ≤ i
    · rw [if_pos (by simpa using hi)]
      have h1 : count - tail - i = 0 := by omega
      have h2 : count - tail - (i + 1) = 0 := by omega
      rw [h1, h2, List.drop_zero, List.drop_zero, List.map_cons]
    · rw [if_neg (by simpa using hi)]
      have h1 : count - tail - i = (count - tail - (i + 1)) + 1 := by omega
      rw [h1, List.drop_succ_cons]

lemma get_events_aux_both (ts : Int) (count head tail : Nat) (hh : head ≠ 0)
    (ht : tail ≠ 0) (hle : head ≤ count - tail) (l : List String) :
    ∀ i, get_events_aux ts count head tail i l =
      ((l.take (head - i)) ++ (l.drop (count - tail - i))).map
        fun s => mkEvent ts (fixBlank s) := by
  induction l with
  | nil => intro i; simp [get_events_aux]
  | cons line rest ih =>
    intro i
    rw [get_events_aux_cons, shouldLog_both count head tail i hh ht, ih (i + 1)]
    by_cases h1 : i < head
    · rw [if_pos (by simp [h1])]
      have e1 : head - i = (head - (i + 1)) + 1 := by omega
      have e2 : count - tail - i = (count - tail - (i + 1)) + 1 := by omega
      rw [e1, e2, List.take_succ_cons, List.drop_succ_cons, List.cons_append,
        List.map_cons]
    · by_cases h2 : count - tail ≤ i
      · rw [if_pos (by simp [h2])]
        have e1 : head - i = 0 := by omega
        have e2 : head - (i + 1) = 0 := by omega
        have e3 : count - tail - i = 0 := by omega
        have e4 : count - tail - (i + 1) = 0 := by omega
        rw [e1, e2, e3, e4]
        simp
      · rw [if_neg (by simp [h1, h2])]
        have e1 : head - i = 0 := by omega
        have e2 : head - (i + 1) = 0 := by omega
        have e3 : count - tail - i = (count - tail - (i + 1)) + 1 := by omega
        rw [e1, e2, e3, List.drop_succ_cons]
        simp

lemma get_events_aux_filter (ts : Int) (count head tail : Nat) (l : List String) :
    ∀ i, get_events_aux ts count head tail i l =
      ((List.enumFrom i l).filter fun p => shouldLog count head tail p.1).map
        fun p => mkEvent ts (fixBlank p.2) := by
  induction l with
  | nil => intro i; rfl
  | cons line rest ih =>
    intro i
    rw [get_events_aux_cons, ih (i + 1)]
    have he : List.enumFrom i (line :: rest) =
        (i, line) :: List.enumFrom (i + 1) rest := rfl
    rw [he, List.filter_cons]
    cases h : shouldLog count head tail i <;> simp [h]

lemma fixBlank_ne_empty (s : String) : fixBlank s ≠ "" := by
  unfold fixBlank
  split
  · decide
  · assumption

lemma unwrapAll_error_iff (rs : List (Except String String)) :
    (∃ e, unwrapAll rs = Except.error e) ↔ ∃ r ∈ rs, ∃ e, r = Except.error e := by
  induction rs with
  | nil => simp [unwrapAll]
  | cons r rest ih =>
    cases r with
    | error e => simp [unwrapAll]
    | ok s =>
      simp only [unwrapAll, List.mem_cons]
      cases hu : unwrapAll rest with
      | error e2 =>
        constructor
        · intro _
          rcases ih.mp ⟨e2, hu⟩ with ⟨r, hr, he⟩
          exact ⟨r, Or.inr hr, he⟩
        · intro _
          exact ⟨e2, rfl⟩
      | ok ss =>
        constructor
        · rintro ⟨e, he⟩
          exact absurd he (by simp)
        · rintro ⟨r, hr | hr, e, he⟩
          · rw [hr] at he
            exact absurd he (by simp)
          · rcases ih.mpr ⟨r, hr, e, he⟩ with ⟨e2, he2⟩
            rw [hu] at he2
            exact absurd he2 (by simp)

/-! ### The claims -/

/-- Claim C1: for every file with `N` lines and every `t > 0`, `get_events`
with `head = 0` and `tail = t` produces exactly the last `min t N` lines of
the file as events, in their original file order, with empty lines replaced by
a single space. -/
theorem c1_tail_mode (ts : Int) (t : Nat) (l : List String) (ht : 0 < t) :
    get_events ts 0 t l =
      ((l.drop (l.length - t)).map fun s => mkEvent ts (fixBlank s)) ∧
      (get_events ts 0 t l).length = min t l.length := by
  have h1 := get_events_aux_tail ts l.length t (by omega) l 0
  have h2 : l.length - t - 0 = l.length - t := by omega
  rw [h2] at h1
  have h3 : get_events ts 0 t l =
      (l.drop (l.length - t)).map fun s => mkEvent ts (fixBlank s) := h1
  refine ⟨h3, ?_⟩
  rw [h3, List.length_map, List.length_drop]
  omega

/-- Witness for C1 at a concrete input: `tail = 2` on a three-line file. -/
theorem c1_tail_mode_witness :
    get_events 0 0 2 ["a", "b", "c"] =
      ((["a", "b", "c"].drop (["a", "b", "c"].length - 2)).map
        fun s => mkEvent 0 (fixBlank s)) ∧
      (get_events 0 0 2 ["a", "b", "c"]).length = min 2 ["a", "b", "c"].length :=
  c1_tail_mode 0 2 ["a", "b", "c"] (by decide)

/-- Claim C2: for every file with `N` lines and every `h > 0`, `get_events`
with `head = h` and `tail = 0` produces exactly the first `min h N` lines of
the file as events, in their original file order, with empty lines replaced by
a single space. -/
theorem c2_head_mode (ts : Int) (h : Nat) (l : List String) (hh : 0 < h) :
    get_events ts h 0 l =
      ((l.take h).map fun s => mkEvent ts (fixBlank s)) ∧
      (get_events ts h 0 l).length = min h l.length := by
  cases l with
  | nil =>
    exact ⟨by simp [get_events, get_events_aux], by simp [get_events, get_events_aux]⟩
  | cons line rest =>
    have h1 := get_events_aux_head ts (line :: rest).length h (by simp) (by omega)
      (line :: rest) 0
    have h2 : h - 0 = h := by omega
    rw [h2] at h1
    have h3 : get_events ts h 0 (line :: rest) =
        ((line :: rest).take h).map fun s => mkEvent ts (fixBlank s) := h1
    refine ⟨h3, ?_⟩
    rw [h3, List.length_map, List.length_take]

/-- Witness for C2 at a concrete input: `head = 2` on a three-line file. -/
theorem c2_head_mode_witness :
    get_events 0 2 0 ["a", "b", "c"] =
      ((["a", "b", "c"].take 2).map fun s => mkEvent 0 (fixBlank s)) ∧
      (get_events 0 2 0 ["a", "b", "c"]).length = min 2 ["a", "b", "c"].length :=
  c2_head_mode 0 2 ["a", "b", "c"] (by decide)

/-- Claim C3: for every file with `N` lines, `h > 0` and `t > 0` with
non-overlapping windows (`h + t ≤ N`), `get_events` produces exactly the first
`h` lines followed by the last `t` lines, in original file order, the middle
lines omitted and nothing else inserted. -/
theorem c3_head_and_tail (ts : Int) (h t : Nat) (l : List String) (hh : 0 < h)
    (ht : 0 < t) (hsep : h + t ≤ l.length) :
    get_events ts h t l =
      ((l.take h) ++ (l.drop (l.length - t))).map fun s => mkEvent ts (fixBlank s) := by
  have h1 := get_events_aux_both ts l.length h t (by omega) (by omega) (by omega) l 0
  have h2 : h - 0 = h := by omega
  have h3 : l.length - t - 0 = l.length - t := by omega
  rw [h2, h3] at h1
  exact h1

/-- Witness for C3 at a concrete input: `head = 1`, `tail = 2` on a four-line
file. -/
theorem c3_head_and_tail_witness :
    get_events 0 1 2 ["a", "b", "c", "d"] =
      (((["a", "b", "c", "d"].take 1) ++
        (["a", "b", "c", "d"].drop (["a", "b", "c", "d"].length - 2))).map
        fun s => mkEvent 0 (fixBlank s)) :=
  c3_head_and_tail 0 1 2 ["a", "b", "c", "d"] (by decide) (by decide) (by decide)

/-- Claim C4: with `head = 0` and `tail = 0`, `get_events` produces exactly one
event per source line, in order, with every empty line mapped to a single
space; and an empty file yields an empty output for all `head` and `tail`
values. -/
theorem c4_all_mode (ts : Int) (head tail : Nat) (l : List String) :
    get_events ts 0 0 l = (l.map fun s => mkEvent ts (fixBlank s)) ∧
      get_events ts head tail [] = [] := by
  refine ⟨?_, rfl⟩
  exact get_events_aux_all ts l.length 0 0 l 0 fun j _ => shouldLog_all _ _

/-- Claim C5 counterexample: on the two-line file `["a", "b"]` with `head = 2`
and `tail = 2` the head window and the tail window both cover both lines, so
both lines are in the overlap; yet each yields one event, not two — the output
has two events, not four. -/
theorem c5_counterexample :
    get_events 0 2 2 ["a", "b"] = [mkEvent 0 "a", mkEvent 0 "b"] ∧
      (get_events 0 2 2 ["a", "b"]).length = 2 := by
  constructor <;> decide

/-- Claim C5 (amended): when `head > 0`, `tail > 0` and the two windows overlap
(`N < head + tail`), every line of the file — including every line of the
overlap — appears exactly once in the output of `get_events`, not twice. -/
theorem c5_overlap_once (ts : Int) (h t : Nat) (l : List String) (hh : 0 < h)
    (ht : 0 < t) (hov : l.length < h + t) :
    get_events ts h t l = l.map fun s => mkEvent ts (fixBlank s) := by
  refine get_events_aux_all ts l.length h t l 0 ?_
  intro j hj
  rw [shouldLog_iff]
  omega

/-- Witness for the amended C5 at a concrete input: `head = 2`, `tail = 2` on a
two-line file. -/
theorem c5_overlap_once_witness :
    get_events 0 2 2 ["a", "b"] = ["a", "b"].map fun s => mkEvent 0 (fixBlank s) :=
  c5_overlap_once 0 2 2 ["a", "b"] (by decide) (by decide) (by decide)

/-- Claim C6: for every file and all head and tail values, each line index
contributes at most one event: the output is the enumerated lines filtered by
the single disjunctive inclusion condition and mapped to events, so a line
satisfying both the head rule and the tail rule is appended once in total, and
the output never has more events than the file has lines. -/
theorem c6_once_per_line (ts : Int) (head tail : Nat) (l : List String) :
    get_events ts head tail l =
      ((l.enum.filter fun p => shouldLog l.length head tail p.1).map
        fun p => mkEvent ts (fixBlank p.2)) ∧
      (get_events ts head tail l).length ≤ l.length := by
  have h1 : get_events ts head tail l =
      ((l.enum.filter fun p => shouldLog l.length head tail p.1).map
        fun p => mkEvent ts (fixBlank p.2)) :=
    get_events_aux_filter ts l.length head tail l 0
  refine ⟨h1, ?_⟩
  rw [h1, List.length_map]
  calc (l.enum.filter fun p => shouldLog l.length head tail p.1).length
      ≤ l.enum.length := List.length_filter_le _ _
    _ = l.length := List.enum_length

/-- Claim C7: every event in the output of `get_events` has a non-empty
message — empty source lines are replaced by a single space before the event is
built — and a file consisting of one blank line yields exactly one event whose
message is a single space, for every head and tail value. -/
theorem c7_nonempty_messages (ts : Int) (head tail : Nat) (l : List String) :
    (∀ e ∈ get_events ts head tail l, ∃ m, e.message = some m ∧ m ≠ "") ∧
      get_events ts head tail [""] = [mkEvent ts " "] := by
  constructor
  · intro e he
    have h1 : get_events ts head tail l =
        ((List.enumFrom 0 l).filter fun p => shouldLog l.length head tail p.1).map
          fun p => mkEvent ts (fixBlank p.2) :=
      get_events_aux_filter ts l.length head tail l 0
    rw [h1] at he
    rcases List.mem_map.mp he with ⟨p, _, rfl⟩
    exact ⟨fixBlank p.2, rfl, fixBlank_ne_empty p.2⟩
  · have h0 : shouldLog 1 head tail 0 = true := by
      rw [shouldLog_iff]
      omega
    show get_events_aux ts 1 head tail 0 [""] = [mkEvent ts " "]
    rw [get_events_aux_cons, if_pos h0]
    rfl

/-- Witness for C7 at concrete inputs: the one-line file `["x"]` and the
single-blank-line file `[""]`, both with `head = tail = 0`. -/
theorem c7_nonempty_messages_witness :
    (∃ m, (mkEvent (0 : Int) "x").message = some m ∧ m ≠ "") ∧
      get_events 0 0 0 [""] = [mkEvent 0 " "] :=
  ⟨(c7_nonempty_messages 0 0 0 ["x"]).1 (mkEvent 0 "x") (by decide),
    (c7_nonempty_messages 0 0 0 [""]).2⟩

/-- Claim C8: within one call of `get_events`, every emitted event carries the
one run timestamp `ts` captured before any line of the file is processed. -/
theorem c8_single_timestamp (ts : Int) (head tail : Nat) (l : List String) :
    ∀ e ∈ get_events ts head tail l, e.timestamp = some ts := by
  intro e he
  have h1 : get_events ts head tail l =
      ((List.enumFrom 0 l).filter fun p => shouldLog l.length head tail p.1).map
        fun p => mkEvent ts (fixBlank p.2) :=
    get_events_aux_filter ts l.length head tail l 0
  rw [h1] at he
  rcases List.mem_map.mp he with ⟨p, _, rfl⟩
  rfl

/-- Witness for C8 at a concrete input: timestamp `5`, file `["a"]`. -/
theorem c8_single_timestamp_witness : (mkEvent (5 : Int) "a").timestamp = some 5 :=
  c8_single_timestamp 5 0 0 ["a"] (mkEvent 5 "a") (by decide)

/-- Claim C9: the read is all-or-nothing: `get_events_result` yields an error
exactly when the file failed to open or some line failed to decode as text, and
on failure no event sequence is produced (the result is the error alone). -/
theorem c9_all_or_nothing (ts : Int) (head tail : Nat)
    (file : Except String (List (Except String String))) :
    (∃ e, get_events_result ts head tail file = Except.error e) ↔
      ((∃ e, file = Except.error e) ∨
        (∃ rs, file = Except.ok rs ∧ ∃ r ∈ rs, ∃ e, r = Except.error e)) := by
  cases file with
  | error e => simp [get_events_result]
  | ok rs =>
    simp only [get_events_result]
    cases hu : unwrapAll rs with
    | error e2 =>
      constructor
      · intro _
        exact Or.inr ⟨rs, rfl, (unwrapAll_error_iff rs).mp ⟨e2, hu⟩⟩
      · intro _
        exact ⟨e2, rfl⟩
    | ok ls =>
      constructor
      · rintro ⟨e, he⟩
        exact absurd he (by simp)
      · rintro (⟨e, he⟩ | ⟨rs2, hrs, hr⟩)
        · exact absurd he (by simp)
        · rcases (unwrapAll_error_iff rs).mpr (by
            rw [show rs = rs2 from by injection hrs]
            exact hr) with ⟨e2, he2⟩
          rw [hu] at he2
          exact absurd he2 (by simp)

/-- Claim C10: in the tail-rule condition the `usize` subtraction
`count - (tail + 1)` is only reached when `tail < count`, because the disjunct
`tail >= count` is checked first; there the subtrahend never exceeds `count`
(`tail + 1 ≤ count`), so the condition coincides with the one computed with
exact integer subtraction at every input — the subtraction never underflows. -/
theorem c10_no_underflow (count tail index : Nat) :
    (¬ count ≤ tail → tail + 1 ≤ count) ∧
      tailCond count tail index = tailCondInt count tail index := by
  constructor
  · omega
  · rw [Bool.eq_iff_iff, tailCond_iff]
    simp only [tailCondInt, Bool.or_eq_true, Bool.and_eq_true, decide_eq_true_eq,
      bne_iff_ne, gt_iff_lt, ge_iff_le]
    omega

/-- Witness for C10 at a concrete input: `count = 3`, `tail = 1`, `index = 0`. -/
theorem c10_no_underflow_witness :
    (¬ (3 : Nat) ≤ 1 → 1 + 1 ≤ 3) ∧ tailCond 3 1 0 = tailCondInt 3 1 0 :=
  c10_no_underflow 3 1 0
